import Mathlib

/-!
Verification of the Luxbeam sequencer builder (`Luxbeam/sequencer.py`).

The Python module builds a textual instruction program for a hardware
sequencer.  We give a shallow embedding: the mutable `LuxbeamSequencer`
object becomes an explicit state record that is threaded through every
operation, and a Python exception becomes an `Except` error that carries
the state at the moment of the raise (so that atomicity of failing calls
is a real theorem, not an artifact of the embedding).

Python's unbounded `int` is modelled by `Int`; `str(n)` for integers is
modelled by `pyIntStr` (ordinary decimal notation, `-` sign for negative
numbers), implemented with the same digit-by-digit algorithm the runtime
uses so that it is structurally computable.
-/

namespace Luxbeam

/-- The Python exception classes raised by the module. -/
inductive Err
  | typeError
  | valueError
  | notImplementedError
deriving DecidableEq

/-- A dynamically typed Python value, as far as the sequencer's
`isinstance` checks can distinguish them: an `int`, a `str`, a
`LuxbeamSequencerVariable` (identified by its `var` name; the parent
back-reference is the threaded state), or anything else (`other`, e.g.
the float `3.5`), which every code path rejects. -/
inductive PyVal
  | int (n : Int)
  | str (s : String)
  | var (name : String)
  | other (tag : String)
deriving DecidableEq

/-- Model of `LuxbeamSequencerVariable`: a named handle to a device variable.
The Python object also stores `parent`; in the embedding the parent's
state is passed explicitly. -/
structure Variable where
  var : String
deriving DecidableEq

/-- The state of a `LuxbeamSequencer` object: `command` is the list of
emitted instruction token lists, `used_labels` is set in `__init__` and
never touched again, `const_vars` is the insertion-ordered constant
cache (Python `dict` from int value to the backing `Variable`; we keep
the variable's name), and the two `_Counter` objects. -/
structure Sequencer where
  command : List (List String)
  usedLabels : List String
  constVars : List (Int × String)
  loopCounter : Nat
  varCounter : Nat
deriving DecidableEq

/-- Model of `LuxbeamSequencer.__init__`: empty buffers, counters at zero. -/
def initSequencer : Sequencer := ⟨[], [], [], 0, 0⟩

/-! ### Decimal rendering (model of Python `str` on integers) -/

/-- The character for a single decimal digit. -/
def digitChar : Nat → Char
  | 0 => '0' | 1 => '1' | 2 => '2' | 3 => '3' | 4 => '4'
  | 5 => '5' | 6 => '6' | 7 => '7' | 8 => '8' | 9 => '9'
  | _ => '*'

/-- Fuelled digit extraction, most significant digit first (the same
algorithm as the runtime's decimal printer; fuel makes it structurally
recursive). -/
def pyNatCharsAux : Nat → Nat → List Char → List Char
  | 0, _, acc => acc
  | fuel + 1, n, acc =>
    if n / 10 = 0 then digitChar (n % 10) :: acc
    else pyNatCharsAux fuel (n / 10) (digitChar (n % 10) :: acc)

/-- The decimal digits of `n`, most significant first. -/
def pyNatChars (n : Nat) : List Char := pyNatCharsAux (n + 1) n []

/-- Python `str(n)` for a natural number. -/
def pyNatStr (n : Nat) : String := ⟨pyNatChars n⟩

/-- Python `str(n)` for an integer. -/
def pyIntStr : Int → String
  | .ofNat n => pyNatStr n
  | .negSucc n => "-" ++ pyNatStr (n + 1)

/-! ### Serialization -/

/-- Python `' '.join(tokens)`. -/
def joinTokens : List String → String
  | [] => ""
  | [t] => t
  | t :: t' :: ts => t ++ " " ++ joinTokens (t' :: ts)

/-- One constant-cache line of `dumps`:
`"AssignVar {0} {1} 1".format(var.var, value)`. -/
def renderConst (p : Int × String) : String :=
  "AssignVar " ++ p.2 ++ " " ++ pyIntStr p.1 ++ " 1"

/-- The constant-assignment lines written first by `dumps`, in cache
insertion order. -/
def constLines (s : Sequencer) : List String := s.constVars.map renderConst

/-- The body lines written by `dumps` after the constants: each stored
token list, space-joined. -/
def bodyLines (s : Sequencer) : List String := s.command.map joinTokens

/-- All lines of `dumps`, in order: the constant prefix followed by the
body. -/
def dumpLines (s : Sequencer) : List String := constLines s ++ bodyLines s

/-- Model of `LuxbeamSequencer.dumps`: every line followed by a newline. -/
def dumps (s : Sequencer) : String :=
  String.join ((dumpLines s).map (fun l => l ++ "\n"))

/-! ### Builder operations -/

/-- Model of `LuxbeamSequencer._check_inum` (pure: it mutates nothing). -/
def check_inum (inum : PyVal) : Except Err Unit :=
  match inum with
  | .int n => if 0 ≤ n ∧ n ≤ 65535 then .ok () else .error .valueError
  | _ => .error .typeError

/-- Model of `LuxbeamSequencer.add_line`: append one instruction. -/
def addLine (s : Sequencer) (command : String) (parameters : List String) : Sequencer :=
  { s with command := s.command ++ [command :: parameters] }

/-- Model of `LuxbeamSequencer._assign_const_var`: look the value up in the
constant cache; on a miss create `ConstVar<value>` and append it to the
cache (Python dicts preserve insertion order). -/
def assignConstVar (s : Sequencer) (value : Int) : Variable × Sequencer :=
  match s.constVars.lookup value with
  | some name => (⟨name⟩, s)
  | none =>
    let name := "ConstVar" ++ pyIntStr value
    (⟨name⟩, { s with constVars := s.constVars ++ [(value, name)] })

/-- Model of `LuxbeamSequencer.reset_global`. -/
def reset_global (s : Sequencer) (wait_for : Int) : Sequencer :=
  addLine s "ResetGlobal" [pyIntStr wait_for]

/-- Model of `LuxbeamSequencer.assign_var`: with `var = None` a fresh
`Var<N>` name is minted from the variable counter. -/
def assign_var (s : Sequencer) (value : Int) (var : Option String) (wait_for : Int) :
    Variable × Sequencer :=
  match var with
  | some name => (⟨name⟩, addLine s "AssignVar" [name, pyIntStr value, pyIntStr wait_for])
  | none =>
    let name := "Var" ++ pyNatStr s.varCounter
    let s1 := { s with varCounter := s.varCounter + 1 }
    (⟨name⟩, addLine s1 "AssignVar" [name, pyIntStr value, pyIntStr wait_for])

/-- Model of `LuxbeamSequencer.assign_var_reg`. -/
def assign_var_reg (s : Sequencer) (regno : Int) (var : Option String) (wait_for : Int) :
    Variable × Sequencer :=
  match var with
  | some name => (⟨name⟩, addLine s "AssignVarReg" [name, pyIntStr regno, pyIntStr wait_for])
  | none =>
    let name := "Var" ++ pyNatStr s.varCounter
    let s1 := { s with varCounter := s.varCounter + 1 }
    (⟨name⟩, addLine s1 "AssignVarReg" [name, pyIntStr regno, pyIntStr wait_for])

/-- Model of `LuxbeamSequencer.load_global`: an `int` argument is routed through
the constant cache (note: `_check_inum` is *not* called); anything that
is then not a `Variable` raises `TypeError`. -/
def load_global (s : Sequencer) (inum : PyVal) (wait_for : Int) :
    Except (Err × Sequencer) Sequencer :=
  match inum with
  | .int n =>
    let (v, s1) := assignConstVar s n
    .ok (addLine s1 "LoadGlobal" [v.var, pyIntStr wait_for])
  | .var name => .ok (addLine s "LoadGlobal" [name, pyIntStr wait_for])
  | _ => .error (.typeError, s)

/-- Model of `LuxbeamSequencer.label`: any `str` (empty included) is accepted;
a non-`str` raises `ValueError`. -/
def label (s : Sequencer) (label : PyVal) (wait_for : Int) :
    Except (Err × Sequencer) Sequencer :=
  match label with
  | .str name => .ok (addLine s "Label" [name, pyIntStr wait_for])
  | _ => .error (.valueError, s)

/-- Model of `LuxbeamSequencer.jump`: same validation as `label`. -/
def jump (s : Sequencer) (label : PyVal) (wait_for : Int) :
    Except (Err × Sequencer) Sequencer :=
  match label with
  | .str name => .ok (addLine s "Jump" [name, pyIntStr wait_for])
  | _ => .error (.valueError, s)

/-- Model of `LuxbeamSequencer.jump_if`: checks `label`, then `var_a`, then
resolves an `int` `var_b` through the constant cache; the `operator`
string is passed through uninterpreted. -/
def jump_if (s : Sequencer) (var_a : PyVal) (operator : String) (var_b : PyVal)
    (label : PyVal) (wait_for : Int) : Except (Err × Sequencer) Sequencer :=
  match label with
  | .str lbl =>
    match var_a with
    | .var aname =>
      match var_b with
      | .int n =>
        let (v, s1) := assignConstVar s n
        .ok (addLine s1 "JumpIf" [aname, operator, v.var, lbl, pyIntStr wait_for])
      | .var bname =>
        .ok (addLine s "JumpIf" [aname, operator, bname, lbl, pyIntStr wait_for])
      | _ => .error (.typeError, s)
    | _ => .error (.typeError, s)
  | _ => .error (.valueError, s)

/-- Model of `LuxbeamSequencer.trig`. -/
def trig (s : Sequencer) (mode source timeout : Int) : Sequencer :=
  addLine s "Trig" [pyIntStr mode, pyIntStr source, pyIntStr timeout]

/-- Model of `LuxbeamSequencer.wait`: the source passes `str(value)` itself as
the `parameters` sequence of `add_line`, so the Python `*parameters`
unpacking iterates the string character by character — each character
of the decimal representation becomes its own token. -/
def wait (s : Sequencer) (value : Int) : Sequencer :=
  addLine s "Wait" ((pyIntStr value).data.map (fun c => String.mk [c]))

/-- Model of `LuxbeamSequencer.add`: `var_a` must be a `Variable`; the addend may
be an `int` literal (no dedup) or a `Variable`; anything else raises
`TypeError`. -/
def add (s : Sequencer) (var_a : PyVal) (value_or_var_b : PyVal) (wait_for : Int) :
    Except (Err × Sequencer) Sequencer :=
  match var_a with
  | .var aname =>
    match value_or_var_b with
    | .int n => .ok (addLine s "Add" [aname, pyIntStr n, pyIntStr wait_for])
    | .var bname => .ok (addLine s "Add" [aname, bname, pyIntStr wait_for])
    | _ => .error (.typeError, s)
  | _ => .error (.typeError, s)

/-- Model of `LuxbeamSequencer.clear`: always `NotImplementedError`. -/
def clear (s : Sequencer) : Except (Err × Sequencer) Sequencer :=
  .error (.notImplementedError, s)

/-- Model of `LuxbeamSequencerVariable.__add__`: an `int` addend allocates a
fresh variable holding the constant and emits an `Add` of `self` into
it; any other addend raises `ValueError` (the source raises
`ValueError`, not `TypeError`). -/
def varAdd (s : Sequencer) (self : Variable) (other : PyVal) :
    Except (Err × Sequencer) (Variable × Sequencer) :=
  match other with
  | .int n =>
    let (r, s1) := assign_var s n .none 1
    match add s1 (.var r.var) (.var self.var) 1 with
    | .ok s2 => .ok (r, s2)
    | .error e => .error e
  | _ => .error (.valueError, s)

/-! ### Loop iterators -/

/-- The fields of `LuxbeamSequencerRangeLoopIterator` (`end` is a Lean
keyword, hence `end_`). -/
structure RangeLoopIterator where
  start : PyVal
  end_ : PyVal
  step : PyVal
deriving DecidableEq

/-- Model of `LuxbeamSequencerRangeLoopIterator.__init__`: when neither bound is
a `Variable`, `end > start` is required, else `ValueError`.  Comparing
two Python values that are not both numbers would itself raise
`TypeError`; only the `int`/`int` case occurs in the module. -/
def rangeLoopIteratorInit (s : Sequencer) (start end_ step : PyVal) :
    Except (Err × Sequencer) (RangeLoopIterator × Sequencer) :=
  match start, end_ with
  | .var a, e => .ok (⟨.var a, e, step⟩, s)
  | st, .var b => .ok (⟨st, .var b, step⟩, s)
  | .int a, .int b =>
    if b > a then .ok (⟨.int a, .int b, step⟩, s) else .error (.valueError, s)
  | _, _ => .error (.typeError, s)

/-- Model of `LuxbeamSequencer.range_loop_iter`: with `end` omitted both bounds
collapse to `0` before the iterator is constructed. -/
def range_loop_iter (s : Sequencer) (start : PyVal) (end_ : Option PyVal) (step : PyVal) :
    Except (Err × Sequencer) (RangeLoopIterator × Sequencer) :=
  match end_ with
  | .none => rangeLoopIteratorInit s (.int 0) (.int 0) step
  | .some e => rangeLoopIteratorInit s start e step

/-- First half of `LuxbeamSequencerRangeLoopIterator.__iter__`, up to
the `yield`: mint `Loop_<N>`, resolve the start variable (reusing a
`Variable` start, otherwise `assign_var(start)`), emit the label.
A start that is neither `int` nor `Variable` is not produced by the
module's API; we reject it. -/
def rangeLoopIterBegin (s : Sequencer) (it : RangeLoopIterator) :
    Except (Err × Sequencer) ((String × Variable) × Sequencer) :=
  let lbl := "Loop_" ++ pyNatStr s.loopCounter
  let s1 := { s with loopCounter := s.loopCounter + 1 }
  match it.start with
  | .var name =>
    match label s1 (.str lbl) 1 with
    | .ok s2 => .ok ((lbl, ⟨name⟩), s2)
    | .error e => .error e
  | .int a =>
    let (v, s2) := assign_var s1 a .none 1
    match label s2 (.str lbl) 1 with
    | .ok s3 => .ok ((lbl, v), s3)
    | .error e => .error e
  | _ => .error (.typeError, s1)

/-- Second half of `LuxbeamSequencerRangeLoopIterator.__iter__`, after
the `yield`: `add(var_start, step)` then
`jump_if(var_start, '<', end, label, 1)`. -/
def rangeLoopIterEnd (s : Sequencer) (it : RangeLoopIterator) (lbl : String)
    (var_start : Variable) : Except (Err × Sequencer) Sequencer :=
  match add s (.var var_start.var) it.step 1 with
  | .ok s1 => jump_if s1 (.var var_start.var) "<" it.end_ (.str lbl) 1
  | .error e => .error e

/-- First half of `LuxbeamSequencerJumpLoopIterator.__iter__`: mint
`Loop<N>` and emit its label (a `str` label never fails). -/
def jumpLoopIterBegin (s : Sequencer) : String × Sequencer :=
  let lbl := "Loop" ++ pyNatStr s.loopCounter
  let s1 := { s with loopCounter := s.loopCounter + 1 }
  match label s1 (.str lbl) 1 with
  | .ok s2 => (lbl, s2)
  | .error (_, s2) => (lbl, s2)

/-- Second half of `LuxbeamSequencerJumpLoopIterator.__iter__`: the
closing unconditional jump back to the minted label. -/
def jumpLoopIterEnd (s : Sequencer) (lbl : String) : Sequencer :=
  match jump s (.str lbl) 1 with
  | .ok s2 => s2
  | .error (_, s2) => s2

/-! ### Whole-program scripts

A program is built by a sequence of calls to the builder's typed API.
`Op` is one such call; `runOps` replays a call list from a fresh
sequencer.  A call that raises leaves the state it carried (by the
atomicity theorem below this is the state from before the call). -/

/-- One public builder call. -/
inductive Op
  | opResetGlobal (wait_for : Int)
  | opAssignVar (value : Int) (var : Option String) (wait_for : Int)
  | opAssignVarReg (regno : Int) (var : Option String) (wait_for : Int)
  | opLoadGlobal (inum : PyVal) (wait_for : Int)
  | opLabel (name : PyVal) (wait_for : Int)
  | opJump (name : PyVal) (wait_for : Int)
  | opJumpIf (var_a : PyVal) (operator : String) (var_b : PyVal) (lbl : PyVal) (wait_for : Int)
  | opTrig (mode source timeout : Int)
  | opWait (value : Int)
  | opAdd (var_a : PyVal) (value_or_var_b : PyVal) (wait_for : Int)
deriving DecidableEq

/-- Extract the state from a fallible call's result. -/
def etos : Except (Err × Sequencer) Sequencer → Sequencer
  | .ok s => s
  | .error (_, s) => s

/-- Replay one builder call. -/
def runOp (s : Sequencer) : Op → Sequencer
  | .opResetGlobal w => reset_global s w
  | .opAssignVar v name w => (assign_var s v name w).2
  | .opAssignVarReg r name w => (assign_var_reg s r name w).2
  | .opLoadGlobal i w => etos (load_global s i w)
  | .opLabel n w => etos (label s n w)
  | .opJump n w => etos (jump s n w)
  | .opJumpIf a o b l w => etos (jump_if s a o b l w)
  | .opTrig m src t => trig s m src t
  | .opWait v => wait s v
  | .opAdd a b w => etos (add s a b w)

/-- Replay a call list. -/
def runOps (ops : List Op) (s : Sequencer) : Sequencer :=
  ops.foldl runOp s

/-- Does this call resolve the integer `v` through the constant-dedup
path (`_assign_const_var`)?  `load_global` resolves an `int` argument
before its type check; `jump_if` resolves an `int` `var_b` only after
the label and `var_a` checks pass. -/
def opResolves (v : Int) : Op → Bool
  | .opLoadGlobal (.int n) _ => n == v
  | .opJumpIf (.var _) _ (.int n) (.str _) _ => n == v
  | _ => false

/-- How many times a call list resolves `v` through the dedup path. -/
def resolveCount (v : Int) (ops : List Op) : Nat :=
  (ops.filter (opResolves v)).length

/-- The unique constant-assignment line `dumps` emits for a cached
integer `v`. -/
def constLineStr (v : Int) : String :=
  "AssignVar " ++ ("ConstVar" ++ pyIntStr v) ++ " " ++ pyIntStr v ++ " 1"

/-- Whether `pre` is an initial segment of `l`. -/
def listStarts : List Char → List Char → Bool
  | [], _ => true
  | _ :: _, [] => false
  | a :: as, b :: bs => a == b && listStarts as bs

/-- No newline in the string (so each emitted instruction is exactly
one textual line of `dumps`). -/
def noNl (t : String) : Bool := t.data.all (fun c => !(c == '\n'))

/-- A caller-chosen variable name that stays out of the dedup cache's
reserved namespace: newline-free, space-free (so it is a single token)
and not beginning with `ConstVar`. -/
def nameClean (name : String) : Bool :=
  noNl name && name.data.all (fun c => !(c == ' ')) &&
    !(listStarts ("ConstVar".data) name.data)

/-- Newline-freedom for the strings inside one argument value. -/
def pyValClean : PyVal → Bool
  | .str t => noNl t
  | .var t => noNl t
  | _ => true

/-- Well-formedness of one builder call: all embedded strings are
newline-free, and explicit `assign_var`/`assign_var_reg` names are
clean in the sense of `nameClean`. -/
def opClean : Op → Bool
  | .opAssignVar _ (some name) _ => nameClean name
  | .opAssignVarReg _ (some name) _ => nameClean name
  | .opLoadGlobal i _ => pyValClean i
  | .opLabel n _ => pyValClean n
  | .opJump n _ => pyValClean n
  | .opJumpIf a o b l _ => pyValClean a && noNl o && pyValClean b && pyValClean l
  | .opAdd a b _ => pyValClean a && pyValClean b
  | _ => true

/-! ### Concrete loop drives (the spec's §8 scenarios) -/

/-- Scenario: `range_loop_iter(0, 5, 1)` driven once with an empty body:
construct, run the prefix, run the suffix. -/
def rangeDemo : Except (Err × Sequencer) Sequencer :=
  match range_loop_iter initSequencer (.int 0) (.some (.int 5)) (.int 1) with
  | .error e => .error e
  | .ok (it, s1) =>
    match rangeLoopIterBegin s1 it with
    | .error e => .error e
    | .ok ((lbl, v), s2) => rangeLoopIterEnd s2 it lbl v

/-- Scenario: `jump_loop_iter()` driven to completion with a body that emits a
single `wait()`. -/
def jumpDemo : Sequencer :=
  let (lbl, s1) := jumpLoopIterBegin initSequencer
  let s2 := wait s1 1
  jumpLoopIterEnd s2 lbl

/-! ## Properties of the decimal rendering -/

/-- The ten decimal digit characters. -/
def decChars : List Char := ['0', '1', '2', '3', '4', '5', '6', '7', '8', '9']

/-- The invariant `_assign_const_var` maintains on the constant cache:
keys are pairwise distinct (it is a Python `dict`) and every cached
variable is named `ConstVar<value>`. -/
def CacheInv (s : Sequencer) : Prop :=
  (s.constVars.map Prod.fst).Nodup ∧
    ∀ p ∈ s.constVars, p.2 = "ConstVar" ++ pyIntStr p.1

theorem pyNatCharsAux_acc :
    ∀ (fuel n : Nat) (acc : List Char),
      pyNatCharsAux fuel n acc = pyNatCharsAux fuel n [] ++ acc := by
  intro fuel
  induction fuel with
  | zero => intro n acc; simp [pyNatCharsAux]
  | succ f ih =>
    intro n acc
    by_cases h : n / 10 = 0
    · simp [pyNatCharsAux, h]
    · simp only [pyNatCharsAux, if_neg h]
      rw [ih (n / 10) (digitChar (n % 10) :: acc), ih (n / 10) [digitChar (n % 10)]]
      simp

theorem pyNatCharsAux_fuel :
    ∀ (n f1 f2 : Nat), n < 10 ^ f1 → n < 10 ^ f2 → 0 < f1 → 0 < f2 →
      pyNatCharsAux f1 n [] = pyNatCharsAux f2 n [] := by
  intro n
  induction n using Nat.strong_induction_on with
  | _ n ih =>
    intro f1 f2 h1 h2 hp1 hp2
    obtain ⟨g1, rfl⟩ : ∃ g, f1 = g + 1 := ⟨f1 - 1, by omega⟩
    obtain ⟨g2, rfl⟩ : ∃ g, f2 = g + 1 := ⟨f2 - 1, by omega⟩
    by_cases h : n / 10 = 0
    · simp [pyNatCharsAux, h]
    · have hn10 : 10 ≤ n := by
        by_contra hlt
        exact h (Nat.div_eq_of_lt (by omega))
      have hg1 : 0 < g1 := by
        rcases Nat.eq_zero_or_pos g1 with rfl | hpos
        · simp at h1; omega
        · exact hpos
      have hg2 : 0 < g2 := by
        rcases Nat.eq_zero_or_pos g2 with rfl | hpos
        · simp at h2; omega
        · exact hpos
      have hd1 : n / 10 < 10 ^ g1 := by
        apply Nat.div_lt_of_lt_mul
        calc n < 10 ^ (g1 + 1) := h1
          _ = 10 * 10 ^ g1 := by ring
      have hd2 : n / 10 < 10 ^ g2 := by
        apply Nat.div_lt_of_lt_mul
        calc n < 10 ^ (g2 + 1) := h2
          _ = 10 * 10 ^ g2 := by ring
      simp only [pyNatCharsAux, if_neg h]
      rw [pyNatCharsAux_acc g1, pyNatCharsAux_acc g2,
        ih (n / 10) (Nat.div_lt_self (by omega) (by omega)) g1 g2 hd1 hd2 hg1 hg2]

theorem pyNatChars_lt {n : Nat} (h : n < 10) : pyNatChars n = [digitChar n] := by
  have hdiv : n / 10 = 0 := Nat.div_eq_of_lt h
  have hmod : n % 10 = n := Nat.mod_eq_of_lt h
  simp [pyNatChars, pyNatCharsAux, hdiv, hmod]

theorem pyNatChars_ge {n : Nat} (h : 10 ≤ n) :
    pyNatChars n = pyNatChars (n / 10) ++ [digitChar (n % 10)] := by
  have hdiv : n / 10 ≠ 0 := by
    intro h0
    have := Nat.div_eq_zero_iff (by omega : 0 < 10) |>.mp h0
    omega
  have hstep : pyNatChars n = pyNatCharsAux n (n / 10) [digitChar (n % 10)] := by
    simp [pyNatChars, pyNatCharsAux, hdiv]
  rw [hstep, pyNatCharsAux_acc]
  congr 1
  apply pyNatCharsAux_fuel
  · calc n / 10 < n := Nat.div_lt_self (by omega) (by omega)
      _ < 10 ^ n := Nat.lt_pow_self (by omega) n
  · calc n / 10 < 10 ^ (n / 10) := Nat.lt_pow_self (by omega) (n / 10)
      _ ≤ 10 ^ (n / 10 + 1) := Nat.pow_le_pow_right (by omega) (by omega)
  · omega
  · omega

theorem digitChar_mem_decChars {d : Nat} (h : d < 10) : digitChar d ∈ decChars := by
  interval_cases d <;> decide

theorem pyNatChars_mem_decChars :
    ∀ (n : Nat), ∀ c ∈ pyNatChars n, c ∈ decChars := by
  intro n
  induction n using Nat.strong_induction_on with
  | _ n ih =>
    intro c hc
    by_cases h : n < 10
    · rw [pyNatChars_lt h] at hc
      simp at hc
      subst hc
      exact digitChar_mem_decChars h
    · rw [pyNatChars_ge (by omega)] at hc
      rcases List.mem_append.mp hc with hc | hc
      · exact ih (n / 10) (Nat.div_lt_self (by omega) (by omega)) c hc
      · simp at hc
        subst hc
        exact digitChar_mem_decChars (Nat.mod_lt _ (by omega))

theorem decChars_clean {c : Char} (h : c ∈ decChars) :
    c ≠ ' ' ∧ c ≠ '\n' ∧ c ≠ '-' := by
  fin_cases h <;> exact ⟨by decide, by decide, by decide⟩

theorem pyNatChars_ne_nil (n : Nat) : pyNatChars n ≠ [] := by
  by_cases h : n < 10
  · rw [pyNatChars_lt h]; simp
  · rw [pyNatChars_ge (by omega)]; simp

theorem digitChar_inj :
    ∀ a < 10, ∀ b < 10, digitChar a = digitChar b → a = b := by decide

theorem pyNatChars_inj :
    ∀ (m n : Nat), pyNatChars m = pyNatChars n → m = n := by
  intro m
  induction m using Nat.strong_induction_on with
  | _ m ih =>
    intro n h
    by_cases hm : m < 10 <;> by_cases hn : n < 10
    · rw [pyNatChars_lt hm, pyNatChars_lt hn] at h
      simp at h
      exact digitChar_inj m hm n hn h
    · rw [pyNatChars_lt hm, pyNatChars_ge (by omega)] at h
      have := congrArg List.length h
      simp at this
      exact absurd this (pyNatChars_ne_nil _)
    · rw [pyNatChars_ge (by omega), pyNatChars_lt hn] at h
      have := congrArg List.length h
      simp at this
      exact absurd this (pyNatChars_ne_nil _)
    · rw [pyNatChars_ge (by omega : 10 ≤ m), pyNatChars_ge (by omega : 10 ≤ n)] at h
      have hrev := congrArg List.reverse h
      simp at hrev
      obtain ⟨hd, htl⟩ := hrev
      have h1 : m / 10 = n / 10 := by
        apply ih (m / 10) (Nat.div_lt_self (by omega) (by omega))
        have := congrArg List.reverse htl
        simpa using this
      have h2 : m % 10 = n % 10 :=
        digitChar_inj _ (Nat.mod_lt _ (by omega)) _ (Nat.mod_lt _ (by omega)) hd
      omega

theorem pyNatStr_inj {m n : Nat} (h : pyNatStr m = pyNatStr n) : m = n := by
  apply pyNatChars_inj
  exact congrArg String.data h

theorem pyNatStr_data (n : Nat) : (pyNatStr n).data = pyNatChars n := rfl

theorem data_append (a b : String) : (a ++ b).data = a.data ++ b.data := rfl

theorem pyIntStr_data :
    ∀ (v : Int), (pyIntStr v).data = pyNatChars v.natAbs ∨
      (pyIntStr v).data = '-' :: pyNatChars v.natAbs := by
  intro v
  cases v with
  | ofNat n => left; rfl
  | negSucc n => right; rfl

theorem pyIntStr_clean :
    ∀ (v : Int), ∀ c ∈ (pyIntStr v).data, c ≠ ' ' ∧ c ≠ '\n' := by
  intro v c hc
  rcases pyIntStr_data v with h | h <;> rw [h] at hc
  · have := decChars_clean (pyNatChars_mem_decChars _ c hc)
    exact ⟨this.1, this.2.1⟩
  · rcases List.mem_cons.mp hc with rfl | hc
    · exact ⟨by decide, by decide⟩
    · have := decChars_clean (pyNatChars_mem_decChars _ c hc)
      exact ⟨this.1, this.2.1⟩

theorem pyIntStr_no_space (v : Int) : ∀ c ∈ (pyIntStr v).data, c ≠ ' ' :=
  fun c hc => (pyIntStr_clean v c hc).1

theorem pyIntStr_inj : ∀ (v w : Int), pyIntStr v = pyIntStr w → v = w := by
  intro v w h
  have hd := congrArg String.data h
  cases v with
  | ofNat m =>
    cases w with
    | ofNat n =>
      have : m = n := pyNatChars_inj m n hd
      rw [this]
    | negSucc n =>
      exfalso
      have hm : ('-' : Char) ∈ pyNatChars m := by
        have h2 : pyNatChars m = '-' :: pyNatChars (n + 1) := hd
        rw [h2]
        exact List.mem_cons_self _ _
      exact (decChars_clean (pyNatChars_mem_decChars m '-' hm)).2.2 rfl
  | negSucc m =>
    cases w with
    | ofNat n =>
      exfalso
      have hn : ('-' : Char) ∈ pyNatChars n := by
        have h2 : '-' :: pyNatChars (m + 1) = pyNatChars n := hd
        rw [← h2]
        exact List.mem_cons_self _ _
      exact (decChars_clean (pyNatChars_mem_decChars n '-' hn)).2.2 rfl
    | negSucc n =>
      have h2 : '-' :: pyNatChars (m + 1) = '-' :: pyNatChars (n + 1) := hd
      injection h2 with h3 h4
      have hmn : m + 1 = n + 1 := pyNatChars_inj _ _ h4
      have : m = n := by omega
      rw [this]

theorem pyIntStr_ne_nil (v : Int) : (pyIntStr v).data ≠ [] := by
  rcases pyIntStr_data v with h | h <;> rw [h]
  · exact pyNatChars_ne_nil _
  · simp

/-! ## Token and line lemmas -/

theorem joinTokens_cons₂ (t u : String) (ts : List String) :
    joinTokens (t :: u :: ts) = t ++ " " ++ joinTokens (u :: ts) := rfl

theorem joinTokens_data₂ (t u : String) (ts : List String) :
    (joinTokens (t :: u :: ts)).data = t.data ++ ' ' :: (joinTokens (u :: ts)).data := by
  rw [joinTokens_cons₂, data_append, data_append]
  simp

theorem takeWhile_no_space (xs : List Char) (ys : List Char)
    (h : ∀ c ∈ xs, c ≠ ' ') :
    List.takeWhile (fun c => !(c == ' ')) (xs ++ ' ' :: ys) = xs := by
  induction xs with
  | nil => simp [List.takeWhile]
  | cons a as ih =>
    have ha : a ≠ ' ' := h a (List.mem_cons_self _ _)
    have hb : (a == ' ') = false := by
      simp [ha]
    simp only [List.cons_append, List.takeWhile_cons, hb, Bool.not_false, if_true]
    rw [ih (fun c hc => h c (List.mem_cons_of_mem _ hc))]

/-- Two space-joined lines whose (space-free) first tokens differ are
different strings. -/
theorem firstTok_ne (a b : String) (r1 r2 : List Char)
    (ha : ∀ c ∈ a.data, c ≠ ' ') (hb : ∀ c ∈ b.data, c ≠ ' ')
    (hab : a ≠ b) : a.data ++ ' ' :: r1 ≠ b.data ++ ' ' :: r2 := by
  intro h
  have h2 := congrArg (List.takeWhile (fun c => !(c == ' '))) h
  rw [takeWhile_no_space _ _ ha, takeWhile_no_space _ _ hb] at h2
  exact hab (String.ext h2)

/-- Shape of a constant-cache line of `dumps`. -/
theorem constLineStr_data (v : Int) :
    (constLineStr v).data =
      ("AssignVar" : String).data ++
        ' ' :: ((("ConstVar" : String).data ++ (pyIntStr v).data) ++
          ' ' :: ((pyIntStr v).data ++ [' ', '1'])) := by
  have h1 : ("AssignVar " : String).data = ("AssignVar" : String).data ++ [' '] := rfl
  have h2 : (" " : String).data = [' '] := rfl
  have h3 : (" 1" : String).data = [' ', '1'] := rfl
  show (("AssignVar " ++ ("ConstVar" ++ pyIntStr v) ++ " " ++ pyIntStr v ++ " 1" :
      String)).data = _
  rw [data_append, data_append, data_append, data_append, h1, h2, h3]
  simp

theorem constName_no_space (v : Int) :
    ∀ c ∈ ("ConstVar" : String).data ++ (pyIntStr v).data, c ≠ ' ' := by
  intro c hc
  rcases List.mem_append.mp hc with hc | hc
  · fin_cases hc <;> decide
  · exact pyIntStr_no_space v c hc

theorem constLineStr_inj : ∀ (v w : Int), constLineStr v = constLineStr w → v = w := by
  intro v w h
  have hd := congrArg String.data h
  rw [constLineStr_data, constLineStr_data] at hd
  have h2 := List.append_cancel_left hd
  injection h2 with h3 h4
  have h5 := congrArg (List.takeWhile (fun c => !(c == ' '))) h4
  rw [takeWhile_no_space _ _ (constName_no_space v),
    takeWhile_no_space _ _ (constName_no_space w)] at h5
  have h6 := List.append_cancel_left h5
  exact pyIntStr_inj v w (String.ext h6)

/-- The check `listStarts` holds for any literal extension of the pattern. -/
theorem listStarts_append (pre : List Char) :
    ∀ (rest : List Char), listStarts pre (pre ++ rest) = true := by
  induction pre with
  | nil => intro rest; simp [listStarts]
  | cons a as ih => intro rest; simp [listStarts, ih]

theorem listStarts_ne_head (a b : Char) (as bs : List Char) (h : ¬a = b) :
    listStarts (a :: as) (b :: bs) = false := by
  simp [listStarts, h]

/-! ## Lines appended by the builder never collide with a constant line -/

theorem bodyLines_addLine (s : Sequencer) (c : String) (ps : List String) :
    bodyLines (addLine s c ps) = bodyLines s ++ [joinTokens (c :: ps)] := by
  simp [bodyLines, addLine]

theorem constLines_addLine (s : Sequencer) (c : String) (ps : List String) :
    constLines (addLine s c ps) = constLines s := rfl

/-- A line whose (space-free) opcode is not `AssignVar` is never a
constant-cache line. -/
theorem opcodeLine_ne_const (t u : String) (ts : List String) (v : Int)
    (ht : ∀ c ∈ t.data, c ≠ ' ') (hne : t ≠ "AssignVar") :
    joinTokens (t :: u :: ts) ≠ constLineStr v := by
  intro h
  have hd := congrArg String.data h
  rw [joinTokens_data₂, constLineStr_data] at hd
  exact firstTok_ne t "AssignVar" _ _ ht (by decide) hne hd

/-- An `AssignVar` body line whose variable name is a single token that
does not begin with `ConstVar` is never a constant-cache line. -/
theorem assignVarLine_ne_const (name valstr wstr : String) (v : Int)
    (hname : ∀ c ∈ name.data, c ≠ ' ')
    (hpre : listStarts (("ConstVar" : String).data) name.data = false) :
    joinTokens ["AssignVar", name, valstr, wstr] ≠ constLineStr v := by
  intro h
  have hd := congrArg String.data h
  rw [joinTokens_data₂, constLineStr_data] at hd
  have h2 := List.append_cancel_left hd
  injection h2 with h3 h4
  rw [joinTokens_data₂] at h4
  have h5 := congrArg (List.takeWhile (fun c => !(c == ' '))) h4
  rw [takeWhile_no_space _ _ hname,
    takeWhile_no_space _ _ (constName_no_space v)] at h5
  rw [h5, listStarts_append] at hpre
  simp at hpre

theorem autoName_data (n : Nat) :
    ("Var" ++ pyNatStr n).data = 'V' :: 'a' :: 'r' :: pyNatChars n := rfl

theorem autoName_no_space (n : Nat) : ∀ c ∈ ("Var" ++ pyNatStr n).data, c ≠ ' ' := by
  intro c hc
  rw [autoName_data] at hc
  simp [List.mem_cons] at hc
  rcases hc with rfl | rfl | rfl | hc
  · decide
  · decide
  · decide
  · exact (decChars_clean (pyNatChars_mem_decChars n c hc)).1

theorem autoName_not_const (n : Nat) :
    listStarts (("ConstVar" : String).data) (("Var" ++ pyNatStr n).data) = false := by
  have h1 : ("ConstVar" : String).data = 'C' :: ("onstVar" : String).data := rfl
  rw [h1, autoName_data]
  exact listStarts_ne_head _ _ _ _ (by decide)

theorem nameClean_props {nm : String} (h : nameClean nm = true) :
    (∀ c ∈ nm.data, c ≠ ' ') ∧
      listStarts (("ConstVar" : String).data) nm.data = false := by
  simp [nameClean, noNl, List.all_eq_true] at h
  obtain ⟨⟨h1, h2⟩, h3⟩ := h
  exact ⟨fun c hc => h2 c hc, h3⟩

/-! ## The constant cache -/

theorem lookup_some_key {l : List (Int × String)} {a : Int} {b : String} :
    l.lookup a = some b → a ∈ l.map Prod.fst := by
  induction l with
  | nil => intro h; simp [List.lookup] at h
  | cons p es ih =>
    obtain ⟨k, c⟩ := p
    intro h
    by_cases hk : a = k
    · simp [hk]
    · have hb : (a == k) = false := by simp [hk]
      simp [List.lookup, hb] at h
      simp [ih h]

theorem lookup_none_key {l : List (Int × String)} {a : Int} :
    l.lookup a = none → a ∉ l.map Prod.fst := by
  induction l with
  | nil => intro _ h; simp at h
  | cons p es ih =>
    obtain ⟨k, c⟩ := p
    intro h hmem
    by_cases hk : a = k
    · have hb : (a == k) = true := by simp [hk]
      simp only [List.lookup, hb] at h
      exact Option.noConfusion h
    · have hb : (a == k) = false := by simp [hk]
      simp only [List.lookup, hb] at h
      simp only [List.map_cons, List.mem_cons] at hmem
      rcases hmem with h1 | h1
      · exact hk h1
      · exact ih h h1

theorem assignConstVar_command (s : Sequencer) (n : Int) :
    (assignConstVar s n).2.command = s.command := by
  unfold assignConstVar
  cases h : s.constVars.lookup n <;> simp

theorem assignConstVar_body (s : Sequencer) (n : Int) :
    bodyLines (assignConstVar s n).2 = bodyLines s := by
  unfold bodyLines
  rw [assignConstVar_command]

theorem assignConstVar_inv (s : Sequencer) (n : Int) (h : CacheInv s) :
    CacheInv (assignConstVar s n).2 := by
  unfold assignConstVar
  cases hl : s.constVars.lookup n with
  | some name => exact h
  | none =>
    constructor
    · simp only [List.map_append]
      rw [List.nodup_append]
      refine ⟨h.1, by simp, ?_⟩
      intro v hv
      simp only [List.map_cons, List.map_nil, List.mem_cons, List.not_mem_nil,
        or_false]
      intro hveq
      subst hveq
      exact lookup_none_key hl hv
    · intro p hp
      rcases List.mem_append.mp hp with hp | hp
      · exact h.2 p hp
      · simp at hp
        rw [hp]

theorem assignConstVar_key (s : Sequencer) (n : Int) :
    n ∈ (assignConstVar s n).2.constVars.map Prod.fst := by
  unfold assignConstVar
  cases hl : s.constVars.lookup n with
  | some name => exact lookup_some_key hl
  | none => simp

theorem assignConstVar_keys_mono (s : Sequencer) (n : Int) :
    ∀ v ∈ s.constVars.map Prod.fst,
      v ∈ (assignConstVar s n).2.constVars.map Prod.fst := by
  intro v hv
  unfold assignConstVar
  cases hl : s.constVars.lookup n with
  | some name => exact hv
  | none => simp only [List.map_append, List.mem_append]; exact Or.inl hv

/-! ## Reduction of the dedup-using calls -/

theorem load_global_int (s : Sequencer) (n w : Int) :
    load_global s (.int n) w =
      .ok (addLine (assignConstVar s n).2 "LoadGlobal"
        [(assignConstVar s n).1.var, pyIntStr w]) := rfl

theorem jump_if_int (s : Sequencer) (aname : String) (o : String) (n : Int)
    (lbl : String) (w : Int) :
    jump_if s (.var aname) o (.int n) (.str lbl) w =
      .ok (addLine (assignConstVar s n).2 "JumpIf"
        [aname, o, (assignConstVar s n).1.var, lbl, pyIntStr w]) := rfl

/-! ## Replaying a call list preserves the cache invariant -/

theorem runOp_cache (s : Sequencer) (op : Op) (h : CacheInv s) :
    CacheInv (runOp s op) ∧
      ∀ v ∈ s.constVars.map Prod.fst, v ∈ (runOp s op).constVars.map Prod.fst := by
  cases op with
  | opResetGlobal w => exact ⟨h, fun v hv => hv⟩
  | opAssignVar value name w => cases name <;> exact ⟨h, fun v hv => hv⟩
  | opAssignVarReg r name w => cases name <;> exact ⟨h, fun v hv => hv⟩
  | opLoadGlobal i w =>
    cases i with
    | int n =>
      simp only [runOp, load_global_int, etos]
      exact ⟨assignConstVar_inv s n h, fun v hv => assignConstVar_keys_mono s n v hv⟩
    | str t => exact ⟨h, fun v hv => hv⟩
    | var t => exact ⟨h, fun v hv => hv⟩
    | other t => exact ⟨h, fun v hv => hv⟩
  | opLabel nm w => cases nm <;> exact ⟨h, fun v hv => hv⟩
  | opJump nm w => cases nm <;> exact ⟨h, fun v hv => hv⟩
  | opJumpIf a o b l w =>
    cases l with
    | str lbl =>
      cases a with
      | var an =>
        cases b with
        | int n =>
          simp only [runOp, jump_if_int, etos]
          exact ⟨assignConstVar_inv s n h, fun v hv => assignConstVar_keys_mono s n v hv⟩
        | str t => exact ⟨h, fun v hv => hv⟩
        | var t => exact ⟨h, fun v hv => hv⟩
        | other t => exact ⟨h, fun v hv => hv⟩
      | int t => exact ⟨h, fun v hv => hv⟩
      | str t => exact ⟨h, fun v hv => hv⟩
      | other t => exact ⟨h, fun v hv => hv⟩
    | int t => exact ⟨h, fun v hv => hv⟩
    | var t => exact ⟨h, fun v hv => hv⟩
    | other t => exact ⟨h, fun v hv => hv⟩
  | opTrig m src t => exact ⟨h, fun v hv => hv⟩
  | opWait value => exact ⟨h, fun v hv => hv⟩
  | opAdd a b w =>
    cases a with
    | var an =>
      cases b with
      | int n => exact ⟨h, fun v hv => hv⟩
      | str t => exact ⟨h, fun v hv => hv⟩
      | var t => exact ⟨h, fun v hv => hv⟩
      | other t => exact ⟨h, fun v hv => hv⟩
    | int t => exact ⟨h, fun v hv => hv⟩
    | str t => exact ⟨h, fun v hv => hv⟩
    | other t => exact ⟨h, fun v hv => hv⟩

theorem runOp_resolves (s : Sequencer) (op : Op) (v : Int)
    (hr : opResolves v op = true) :
    v ∈ (runOp s op).constVars.map Prod.fst := by
  cases op with
  | opResetGlobal w => exact Bool.noConfusion hr
  | opAssignVar value name w => exact Bool.noConfusion hr
  | opAssignVarReg r name w => exact Bool.noConfusion hr
  | opLoadGlobal i w =>
    cases i with
    | int n =>
      have hnv : n = v := eq_of_beq hr
      subst hnv
      simp only [runOp, load_global_int, etos]
      exact assignConstVar_key s n
    | str t => exact Bool.noConfusion hr
    | var t => exact Bool.noConfusion hr
    | other t => exact Bool.noConfusion hr
  | opLabel nm w => exact Bool.noConfusion hr
  | opJump nm w => exact Bool.noConfusion hr
  | opJumpIf a o b l w =>
    cases a with
    | var an =>
      cases b with
      | int n =>
        cases l with
        | str lbl =>
          have hnv : n = v := eq_of_beq hr
          subst hnv
          simp only [runOp, jump_if_int, etos]
          exact assignConstVar_key s n
        | int t => exact Bool.noConfusion hr
        | var t => exact Bool.noConfusion hr
        | other t => exact Bool.noConfusion hr
      | str t => exact Bool.noConfusion hr
      | var t => exact Bool.noConfusion hr
      | other t => exact Bool.noConfusion hr
    | int t => exact Bool.noConfusion hr
    | str t => exact Bool.noConfusion hr
    | other t => exact Bool.noConfusion hr
  | opTrig m src t => exact Bool.noConfusion hr
  | opWait value => exact Bool.noConfusion hr
  | opAdd a b w => exact Bool.noConfusion hr

theorem not_mem_body_append (s : Sequencer) (c : String) (ps : List String) (v : Int)
    (h : constLineStr v ∉ bodyLines s)
    (hline : joinTokens (c :: ps) ≠ constLineStr v) :
    constLineStr v ∉ bodyLines (addLine s c ps) := by
  rw [bodyLines_addLine]
  intro hmem
  rcases List.mem_append.mp hmem with hm | hm
  · exact h hm
  · simp at hm
    exact hline hm.symm

theorem runOp_body (s : Sequencer) (op : Op) (v : Int) (hc : opClean op = true)
    (h : constLineStr v ∉ bodyLines s) :
    constLineStr v ∉ bodyLines (runOp s op) := by
  cases op with
  | opResetGlobal w =>
    exact not_mem_body_append _ _ _ _ h
      (opcodeLine_ne_const "ResetGlobal" _ _ v (by decide) (by decide))
  | opAssignVar value name w =>
    cases name with
    | some nm =>
      have hp := nameClean_props (by simpa [opClean] using hc)
      exact not_mem_body_append _ _ _ _ h
        (assignVarLine_ne_const nm _ _ v hp.1 hp.2)
    | none =>
      exact not_mem_body_append _ _ _ _ h
        (assignVarLine_ne_const ("Var" ++ pyNatStr s.varCounter) _ _ v
          (autoName_no_space s.varCounter) (autoName_not_const s.varCounter))
  | opAssignVarReg r name w =>
    cases name with
    | some nm =>
      exact not_mem_body_append _ _ _ _ h
        (opcodeLine_ne_const "AssignVarReg" _ _ v (by decide) (by decide))
    | none =>
      exact not_mem_body_append _ _ _ _ h
        (opcodeLine_ne_const "AssignVarReg" _ _ v (by decide) (by decide))
  | opLoadGlobal i w =>
    cases i with
    | int n =>
      have h2 : constLineStr v ∉ bodyLines (assignConstVar s n).2 := by
        rw [assignConstVar_body]; exact h
      simp only [runOp, load_global_int, etos]
      exact not_mem_body_append _ _ _ _ h2
        (opcodeLine_ne_const "LoadGlobal" _ _ v (by decide) (by decide))
    | str t => exact h
    | var t =>
      exact not_mem_body_append _ _ _ _ h
        (opcodeLine_ne_const "LoadGlobal" _ _ v (by decide) (by decide))
    | other t => exact h
  | opLabel nm w =>
    cases nm with
    | str t =>
      exact not_mem_body_append _ _ _ _ h
        (opcodeLine_ne_const "Label" _ _ v (by decide) (by decide))
    | int t => exact h
    | var t => exact h
    | other t => exact h
  | opJump nm w =>
    cases nm with
    | str t =>
      exact not_mem_body_append _ _ _ _ h
        (opcodeLine_ne_const "Jump" _ _ v (by decide) (by decide))
    | int t => exact h
    | var t => exact h
    | other t => exact h
  | opJumpIf a o b l w =>
    cases l with
    | str lbl =>
      cases a with
      | var an =>
        cases b with
        | int n =>
          have h2 : constLineStr v ∉ bodyLines (assignConstVar s n).2 := by
            rw [assignConstVar_body]; exact h
          simp only [runOp, jump_if_int, etos]
          exact not_mem_body_append _ _ _ _ h2
            (opcodeLine_ne_const "JumpIf" _ _ v (by decide) (by decide))
        | str t => exact h
        | var t =>
          exact not_mem_body_append _ _ _ _ h
            (opcodeLine_ne_const "JumpIf" _ _ v (by decide) (by decide))
        | other t => exact h
      | int t => exact h
      | str t => exact h
      | other t => exact h
    | int t => exact h
    | var t => exact h
    | other t => exact h
  | opTrig m src t =>
    exact not_mem_body_append _ _ _ _ h
      (opcodeLine_ne_const "Trig" _ _ v (by decide) (by decide))
  | opWait value =>
    obtain ⟨c0, cs, hcs⟩ : ∃ c0 cs, (pyIntStr value).data = c0 :: cs := by
      cases hd : (pyIntStr value).data with
      | nil => exact absurd hd (pyIntStr_ne_nil value)
      | cons x xs => exact ⟨x, xs, rfl⟩
    show constLineStr v ∉
      bodyLines (addLine s "Wait" ((pyIntStr value).data.map (fun c => String.mk [c])))
    rw [hcs, List.map_cons]
    exact not_mem_body_append _ _ _ _ h
      (opcodeLine_ne_const "Wait" _ _ v (by decide) (by decide))
  | opAdd a b w =>
    cases a with
    | var an =>
      cases b with
      | int n =>
        exact not_mem_body_append _ _ _ _ h
          (opcodeLine_ne_const "Add" _ _ v (by decide) (by decide))
      | var t =>
        exact not_mem_body_append _ _ _ _ h
          (opcodeLine_ne_const "Add" _ _ v (by decide) (by decide))
      | str t => exact h
      | other t => exact h
    | int t => exact h
    | str t => exact h
    | other t => exact h

/-! ## Fold-level lemmas -/

theorem runOps_cons (op : Op) (rest : List Op) (s : Sequencer) :
    runOps (op :: rest) s = runOps rest (runOp s op) := rfl

theorem runOps_cache :
    ∀ (ops : List Op) (s : Sequencer), CacheInv s →
      CacheInv (runOps ops s) ∧
        ∀ v ∈ s.constVars.map Prod.fst,
          v ∈ (runOps ops s).constVars.map Prod.fst := by
  intro ops
  induction ops with
  | nil => intro s h; exact ⟨h, fun v hv => hv⟩
  | cons op rest ih =>
    intro s h
    have h1 := runOp_cache s op h
    have h2 := ih (runOp s op) h1.1
    rw [runOps_cons]
    exact ⟨h2.1, fun v hv => h2.2 v (h1.2 v hv)⟩

theorem runOps_body :
    ∀ (ops : List Op) (s : Sequencer) (v : Int),
      (∀ op ∈ ops, opClean op = true) →
      constLineStr v ∉ bodyLines s →
      constLineStr v ∉ bodyLines (runOps ops s) := by
  intro ops
  induction ops with
  | nil => intro s v _ h; exact h
  | cons op rest ih =>
    intro s v hclean h
    rw [runOps_cons]
    exact ih (runOp s op) v (fun o ho => hclean o (List.mem_cons_of_mem _ ho))
      (runOp_body s op v (hclean op (List.mem_cons_self _ _)) h)

theorem runOps_resolved :
    ∀ (ops : List Op) (s : Sequencer) (v : Int), CacheInv s →
      (∃ op ∈ ops, opResolves v op = true) →
      v ∈ (runOps ops s).constVars.map Prod.fst := by
  intro ops
  induction ops with
  | nil =>
    intro s v _ h
    obtain ⟨op, hmem, _⟩ := h
    simp at hmem
  | cons op rest ih =>
    intro s v h hex
    obtain ⟨op', hmem, hres⟩ := hex
    rw [runOps_cons]
    rcases List.mem_cons.mp hmem with rfl | hmem'
    · exact (runOps_cache rest (runOp s op') (runOp_cache s op' h).1).2 v
        (runOp_resolves s op' v hres)
    · exact ih (runOp s op) v (runOp_cache s op h).1 ⟨op', hmem', hres⟩

/-- Under the cache invariant, the constant prefix contains exactly one
line for each cached value. -/
theorem constLines_count (s : Sequencer) (v : Int) (hinv : CacheInv s)
    (hv : v ∈ s.constVars.map Prod.fst) :
    (constLines s).count (constLineStr v) = 1 := by
  have hmap : constLines s = (s.constVars.map Prod.fst).map constLineStr := by
    unfold constLines
    rw [List.map_map]
    apply List.map_congr_left
    intro p hp
    have h2 := hinv.2 p hp
    show renderConst p = constLineStr p.1
    unfold renderConst constLineStr
    rw [h2]
  rw [hmap,
    List.count_map_of_injective _ _ (fun a b hab => constLineStr_inj a b hab)]
  exact List.count_eq_one_of_mem hinv.1 hv

/-! ## The claims -/

/-- C1: for every integer value `v` resolved through the constant-dedup
path (`load_global` with an integer, `jump_if` with an integer `var_b`)
two or more times while building one program with the typed builder API
(well-formed arguments: newline-free strings, explicit `assign_var`
names single-token and outside the reserved `ConstVar` namespace), the
serialized output of `dumps` — whose line list is by definition the
constant prefix followed by the body — contains exactly one `AssignVar`
line assigning `v` to the variable `ConstVar<v>`, that line is in the
constant prefix, and it is absent from the body, hence it precedes
every body instruction line. -/
theorem constant_dedup_invariant (ops : List Op) (v : Int)
    (hclean : ∀ op ∈ ops, opClean op = true)
    (hres : 2 ≤ resolveCount v ops) :
    dumpLines (runOps ops initSequencer) =
      constLines (runOps ops initSequencer) ++ bodyLines (runOps ops initSequencer) ∧
    (dumpLines (runOps ops initSequencer)).count (constLineStr v) = 1 ∧
    constLineStr v ∈ constLines (runOps ops initSequencer) ∧
    constLineStr v ∉ bodyLines (runOps ops initSequencer) := by
  have hinv0 : CacheInv initSequencer := by
    constructor
    · simp [initSequencer]
    · intro p hp
      simp [initSequencer] at hp
  have hex : ∃ op ∈ ops, opResolves v op = true := by
    have hpos : 0 < (ops.filter (opResolves v)).length := by
      unfold resolveCount at hres
      omega
    obtain ⟨op, hop⟩ := List.exists_mem_of_length_pos hpos
    exact ⟨op, (List.mem_filter.mp hop).1, (List.mem_filter.mp hop).2⟩
  have hkey := runOps_resolved ops initSequencer v hinv0 hex
  have hinv := (runOps_cache ops initSequencer hinv0).1
  have hbody : constLineStr v ∉ bodyLines (runOps ops initSequencer) := by
    apply runOps_body ops initSequencer v hclean
    intro hmem
    simp [bodyLines, initSequencer] at hmem
  have hcount := constLines_count _ v hinv hkey
  refine ⟨rfl, ?_, ?_, hbody⟩
  · show (constLines _ ++ bodyLines _).count _ = 1
    rw [List.count_append, hcount, List.count_eq_zero_of_not_mem hbody]
  · rw [← List.count_pos_iff]
    omega

/-- Witness for C1: resolving `5` twice via `load_global` yields one
`AssignVar ConstVar5 5 1` line, in the constant prefix only. -/
theorem constant_dedup_invariant_witness :
    (∀ op ∈ ([.opLoadGlobal (.int 5) 400, .opLoadGlobal (.int 5) 400] : List Op),
      opClean op = true) ∧
    2 ≤ resolveCount 5 [.opLoadGlobal (.int 5) 400, .opLoadGlobal (.int 5) 400] ∧
    (dumpLines (runOps [.opLoadGlobal (.int 5) 400, .opLoadGlobal (.int 5) 400]
        initSequencer) =
      constLines (runOps [.opLoadGlobal (.int 5) 400, .opLoadGlobal (.int 5) 400]
        initSequencer) ++
      bodyLines (runOps [.opLoadGlobal (.int 5) 400, .opLoadGlobal (.int 5) 400]
        initSequencer) ∧
    (dumpLines (runOps [.opLoadGlobal (.int 5) 400, .opLoadGlobal (.int 5) 400]
        initSequencer)).count (constLineStr 5) = 1 ∧
    constLineStr 5 ∈ constLines (runOps [.opLoadGlobal (.int 5) 400,
      .opLoadGlobal (.int 5) 400] initSequencer) ∧
    constLineStr 5 ∉ bodyLines (runOps [.opLoadGlobal (.int 5) 400,
      .opLoadGlobal (.int 5) 400] initSequencer)) :=
  ⟨by decide, by decide,
    constant_dedup_invariant [.opLoadGlobal (.int 5) 400, .opLoadGlobal (.int 5) 400]
      5 (by decide) (by decide)⟩

/-- C2 (the code at the claim's failing input): `load_global(70000)` on
a fresh sequencer performs no range validation — it caches
`ConstVar70000` and emits `LoadGlobal ConstVar70000 400` without error —
even though the module's own `_check_inum` helper (which `load_global`
never calls) rejects `70000`, `-1` (value error) and non-integers
(type error) exactly as the claim demands. -/
theorem load_global_out_of_range :
    load_global initSequencer (.int 70000) 400 =
      .ok { command := [["LoadGlobal", "ConstVar70000", "400"]], usedLabels := [],
            constVars := [(70000, "ConstVar70000")], loopCounter := 0,
            varCounter := 0 } ∧
    check_inum (.int 70000) = .error .valueError ∧
    check_inum (.int (-1)) = .error .valueError ∧
    check_inum (.int 65535) = .ok () ∧
    check_inum (.other "3.5") = .error .typeError := by
  refine ⟨rfl, ?_, ?_, ?_, rfl⟩ <;> simp [check_inum]

/-- C3: every fallible builder call that raises leaves the sequencer
state exactly as it was before the call (the error value carries the
state at the moment of the raise; it always equals the input state, so
neither the instruction buffer nor the constant cache is touched). -/
theorem builder_error_atomicity (s : Sequencer) :
    (∀ i w e s', load_global s i w = .error (e, s') → s' = s) ∧
    (∀ l w e s', label s l w = .error (e, s') → s' = s) ∧
    (∀ l w e s', jump s l w = .error (e, s') → s' = s) ∧
    (∀ a o b l w e s', jump_if s a o b l w = .error (e, s') → s' = s) ∧
    (∀ a b w e s', add s a b w = .error (e, s') → s' = s) ∧
    (∀ x o e s', varAdd s x o = .error (e, s') → s' = s) ∧
    (∀ st en stp e s', range_loop_iter s st en stp = .error (e, s') → s' = s) ∧
    (∀ e s', clear s = .error (e, s') → s' = s) := by
  refine ⟨?_, ?_, ?_, ?_, ?_, ?_, ?_, ?_⟩
  · intro i w e s' h
    cases i with
    | int n => rw [load_global_int] at h; exact Except.noConfusion h
    | var t => exact Except.noConfusion h
    | str t => injection h with h2; exact (congrArg Prod.snd h2).symm
    | other t => injection h with h2; exact (congrArg Prod.snd h2).symm
  · intro l w e s' h
    cases l with
    | str t => exact Except.noConfusion h
    | int t => injection h with h2; exact (congrArg Prod.snd h2).symm
    | var t => injection h with h2; exact (congrArg Prod.snd h2).symm
    | other t => injection h with h2; exact (congrArg Prod.snd h2).symm
  · intro l w e s' h
    cases l with
    | str t => exact Except.noConfusion h
    | int t => injection h with h2; exact (congrArg Prod.snd h2).symm
    | var t => injection h with h2; exact (congrArg Prod.snd h2).symm
    | other t => injection h with h2; exact (congrArg Prod.snd h2).symm
  · intro a o b l w e s' h
    cases l with
    | str lbl =>
      cases a with
      | var an =>
        cases b with
        | int n => rw [jump_if_int] at h; exact Except.noConfusion h
        | var t => exact Except.noConfusion h
        | str t => injection h with h2; exact (congrArg Prod.snd h2).symm
        | other t => injection h with h2; exact (congrArg Prod.snd h2).symm
      | int t => injection h with h2; exact (congrArg Prod.snd h2).symm
      | str t => injection h with h2; exact (congrArg Prod.snd h2).symm
      | other t => injection h with h2; exact (congrArg Prod.snd h2).symm
    | int t => injection h with h2; exact (congrArg Prod.snd h2).symm
    | var t => injection h with h2; exact (congrArg Prod.snd h2).symm
    | other t => injection h with h2; exact (congrArg Prod.snd h2).symm
  · intro a b w e s' h
    cases a with
    | var an =>
      cases b with
      | int n => exact Except.noConfusion h
      | var t => exact Except.noConfusion h
      | str t => injection h with h2; exact (congrArg Prod.snd h2).symm
      | other t => injection h with h2; exact (congrArg Prod.snd h2).symm
    | int t => injection h with h2; exact (congrArg Prod.snd h2).symm
    | str t => injection h with h2; exact (congrArg Prod.snd h2).symm
    | other t => injection h with h2; exact (congrArg Prod.snd h2).symm
  · intro x o e s' h
    cases o with
    | int n => exact Except.noConfusion h
    | str t => injection h with h2; exact (congrArg Prod.snd h2).symm
    | var t => injection h with h2; exact (congrArg Prod.snd h2).symm
    | other t => injection h with h2; exact (congrArg Prod.snd h2).symm
  · intro st en stp e s' h
    cases en with
    | none => injection h with h2; exact (congrArg Prod.snd h2).symm
    | some en' =>
      cases st with
      | var a => cases en' <;> exact Except.noConfusion h
      | int a =>
        cases en' with
        | var b0 => exact Except.noConfusion h
        | int b0 =>
          by_cases hb : b0 > a
          · simp only [range_loop_iter, rangeLoopIteratorInit, if_pos hb] at h
            exact Except.noConfusion h
          · simp only [range_loop_iter, rangeLoopIteratorInit, if_neg hb] at h
            injection h with h2
            exact (congrArg Prod.snd h2).symm
        | str b0 => injection h with h2; exact (congrArg Prod.snd h2).symm
        | other b0 => injection h with h2; exact (congrArg Prod.snd h2).symm
      | str a =>
        cases en' with
        | var b0 => exact Except.noConfusion h
        | int b0 => injection h with h2; exact (congrArg Prod.snd h2).symm
        | str b0 => injection h with h2; exact (congrArg Prod.snd h2).symm
        | other b0 => injection h with h2; exact (congrArg Prod.snd h2).symm
      | other a =>
        cases en' with
        | var b0 => exact Except.noConfusion h
        | int b0 => injection h with h2; exact (congrArg Prod.snd h2).symm
        | str b0 => injection h with h2; exact (congrArg Prod.snd h2).symm
        | other b0 => injection h with h2; exact (congrArg Prod.snd h2).symm
  · intro e s' h
    injection h with h2
    exact (congrArg Prod.snd h2).symm

/-- Witness for C3: `add(var_a, 3.5)` raises a type error and leaves a
fresh sequencer exactly unchanged. -/
theorem builder_error_atomicity_witness :
    add initSequencer (.var "VarA") (.other "3.5") 1 =
      .error (.typeError, initSequencer) ∧
    initSequencer = initSequencer :=
  ⟨rfl, (builder_error_atomicity initSequencer).2.2.2.2.1 (.var "VarA")
    (.other "3.5") 1 .typeError initSequencer rfl⟩

/-- C4 counterexample: `range_loop_iter(3)` with `end` omitted does
*not* return a drivable iterator — after collapsing both bounds to `0`
the constructor's `end > start` check fails and a `ValueError` is
raised before anything is emitted, refuting "no error is signaled". -/
theorem range_loop_iter_no_end_counterexample :
    range_loop_iter initSequencer (.int 3) .none (.int 1) =
      .error (.valueError, initSequencer) := rfl

/-- C4 (amended): for every `start` and `step`, `range_loop_iter` with
`end` omitted sets both bounds to `0` and then signals a value error at
construction (`0 > 0` fails the bound check); no iterator is returned
and the state is unchanged. -/
theorem range_loop_iter_no_end_value_error (s : Sequencer) (start step : PyVal) :
    range_loop_iter s start .none step = .error (.valueError, s) := rfl

/-- C5 counterexample: `label("")` with the empty string does *not*
signal a value error — the empty string is a `str`, so the line
`Label  1` (empty name) is emitted. -/
theorem label_empty_accepted :
    label initSequencer (.str "") 1 =
      .ok { command := [["Label", "", "1"]], usedLabels := [], constVars := [],
            loopCounter := 0, varCounter := 0 } := rfl

/-- C5 (amended): `label(name, wait_for)` appends
`Label <name> <wait_for>` for *every* string `name`, the empty string
included; it signals a value error exactly for non-string arguments.
`jump` has the same validation. -/
theorem label_jump_validation (s : Sequencer) :
    (∀ name w, label s (.str name) w = .ok (addLine s "Label" [name, pyIntStr w])) ∧
    (∀ n w, label s (.int n) w = .error (.valueError, s)) ∧
    (∀ t w, label s (.var t) w = .error (.valueError, s)) ∧
    (∀ t w, label s (.other t) w = .error (.valueError, s)) ∧
    (∀ name w, jump s (.str name) w = .ok (addLine s "Jump" [name, pyIntStr w])) ∧
    (∀ n w, jump s (.int n) w = .error (.valueError, s)) ∧
    (∀ t w, jump s (.var t) w = .error (.valueError, s)) ∧
    (∀ t w, jump s (.other t) w = .error (.valueError, s)) :=
  ⟨fun _ _ => rfl, fun _ _ => rfl, fun _ _ => rfl, fun _ _ => rfl,
   fun _ _ => rfl, fun _ _ => rfl, fun _ _ => rfl, fun _ _ => rfl⟩

/-- C6 counterexample: adding the non-integer `3.5` to a Variable
raises `ValueError`, which is not the type error the claim names. -/
theorem var_add_not_type_error :
    varAdd initSequencer ⟨"VarX"⟩ (.other "3.5") =
      .error (.valueError, initSequencer) ∧
    Err.valueError ≠ Err.typeError := ⟨rfl, by decide⟩

/-- C6 (amended): for every Variable `self` and integer addend `n`,
`self + n` allocates a fresh auto-named Variable via `assign_var(n)`,
emits an `Add` of `self` into it, and returns the new handle (the
original Variable value is untouched); every non-integer addend signals
a *value* error and leaves the state unchanged. -/
theorem var_add_spec (s : Sequencer) (self : Variable) :
    (∀ n : Int, varAdd s self (.int n) =
      .ok (⟨"Var" ++ pyNatStr s.varCounter⟩,
        { s with
          command := s.command ++
            [["AssignVar", "Var" ++ pyNatStr s.varCounter, pyIntStr n, "1"],
             ["Add", "Var" ++ pyNatStr s.varCounter, self.var, "1"]],
          varCounter := s.varCounter + 1 })) ∧
    (∀ t, varAdd s self (.str t) = .error (.valueError, s)) ∧
    (∀ t, varAdd s self (.var t) = .error (.valueError, s)) ∧
    (∀ t, varAdd s self (.other t) = .error (.valueError, s)) := by
  refine ⟨?_, fun _ => rfl, fun _ => rfl, fun _ => rfl⟩
  intro n
  have h1 : pyIntStr 1 = "1" := rfl
  simp [varAdd, assign_var, add, addLine, h1, List.append_assoc]

/-- C7: `range_loop_iter(0, 5, 1)` driven once with an empty body
serializes to exactly: one `AssignVar ConstVar5 5 1` constant-prefix
line, the start assignment `AssignVar Var0 0 1`, the label
`Label Loop_0 1`, the increment `Add Var0 1 1`, and the back-jump
`JumpIf Var0 < ConstVar5 Loop_0 1`, in that order. -/
theorem range_demo_serialization :
    Except.map dumpLines rangeDemo =
      .ok ["AssignVar ConstVar5 5 1", "AssignVar Var0 0 1", "Label Loop_0 1",
           "Add Var0 1 1", "JumpIf Var0 < ConstVar5 Loop_0 1"] ∧
    Except.map dumps rangeDemo =
      .ok ("AssignVar ConstVar5 5 1\nAssignVar Var0 0 1\nLabel Loop_0 1\n" ++
        "Add Var0 1 1\nJumpIf Var0 < ConstVar5 Loop_0 1\n") := ⟨rfl, rfl⟩

/-- C8: `jump_loop_iter()` driven to completion around a single
`wait()` serializes to exactly three lines: the minted label, the wait,
and the jump back to the same label. -/
theorem jump_demo_serialization :
    dumpLines jumpDemo = ["Label Loop0 1", "Wait 1", "Jump Loop0 1"] ∧
    dumps jumpDemo = "Label Loop0 1\nWait 1\nJump Loop0 1\n" := ⟨rfl, rfl⟩

/-- C9: constructing a range loop with integer bounds `end ≤ start`
signals a value error with the state unchanged (nothing emitted), while
a `Variable` in either position skips the validation entirely and the
iterator is returned. -/
theorem range_loop_bounds_validation (s : Sequencer) :
    (∀ a b : Int, ∀ step : PyVal, ¬a < b →
      range_loop_iter s (.int a) (some (.int b)) step = .error (.valueError, s)) ∧
    (∀ t : String, ∀ e step : PyVal,
      range_loop_iter s (.var t) (some e) step = .ok (⟨.var t, e, step⟩, s)) ∧
    (∀ st step : PyVal, ∀ t : String,
      range_loop_iter s st (some (.var t)) step = .ok (⟨st, .var t, step⟩, s)) := by
  refine ⟨?_, ?_, ?_⟩
  · intro a b step hab
    have h2 : range_loop_iter s (.int a) (some (.int b)) step =
        if b > a then .ok (⟨.int a, .int b, step⟩, s)
        else .error (.valueError, s) := rfl
    rw [h2, if_neg hab]
  · intro t e step
    cases e <;> rfl
  · intro st step t
    cases st <;> rfl

/-- Witness for C9: `range_loop_iter(5, 3, 1)` raises a value error at
construction on a fresh sequencer. -/
theorem range_loop_bounds_validation_witness :
    ¬(5 : Int) < 3 ∧
    range_loop_iter initSequencer (.int 5) (some (.int 3)) (.int 1) =
      .error (.valueError, initSequencer) :=
  ⟨by decide,
    (range_loop_bounds_validation initSequencer).1 5 3 (.int 1) (by decide)⟩

/-- C10: `wait(value)` passes `str(value)` itself as the parameter
sequence, so the appended line is `Wait` followed by one single-character
token per character of the decimal representation: `wait(10)` serializes
as `Wait 1 0` (not `Wait 10`), while a single-digit value such as `7`
yields the single token `7`. -/
theorem wait_splits_decimal_digits :
    (∀ (s : Sequencer) (v : Int),
      dumpLines (wait s v) =
        dumpLines s ++
          [joinTokens ("Wait" :: (pyIntStr v).data.map (fun c => String.mk [c]))]) ∧
    (∀ (v : Int),
      ((pyIntStr v).data.map (fun c => String.mk [c])).length =
        (pyIntStr v).data.length ∧
      ∀ t ∈ (pyIntStr v).data.map (fun c => String.mk [c]), t.length = 1) ∧
    dumps (wait initSequencer 10) = "Wait 1 0\n" ∧
    dumps (wait initSequencer 7) = "Wait 7\n" ∧
    ("Wait 1 0" : String) ≠ "Wait 10" := by
  refine ⟨?_, ?_, rfl, rfl, by decide⟩
  · intro s v
    unfold dumpLines wait
    rw [bodyLines_addLine, constLines_addLine, List.append_assoc]
  · intro v
    constructor
    · simp
    · intro t ht
      simp at ht
      obtain ⟨c, _, hc⟩ := ht
      rw [← hc]
      rfl

end Luxbeam
